import Mathlib

/-
Shallow embedding of ner_names.py, a span based redaction engine for
German clinical free text. Pure Python functions are translated directly
to Lean functions on character lists; external collaborators are passed
in as explicit arguments: the spaCy pipeline as an entity function, the
regular expression engine used for case ids as a compile function, the
dictionary file as its list of lines, and the module level pipeline
cache as an explicit optional value. All offsets count characters, as
Python string indices do.
-/

namespace NerNames

/-- An entry of an input batch: null, a string, or some other non string
value. Distinct non string values carry a numeric tag so they stay
distinct. -/
inductive PyVal where
  | none : PyVal
  | str : String → PyVal
  | other : Nat → PyVal
deriving DecidableEq

/-- ASCII part of the Python whitespace class, as used by strip and by
the whitespace character class of regular expressions. -/
def isPySpace (c : Char) : Bool :=
  c == ' ' || c == '\t' || c == '\n' || c == '\r' || c == '\x0b' || c == '\x0c'

/-- Model of the lower method of Python strings on ASCII and Latin-1
letters, the alphabet this module handles. Upper case letters in these
ranges map 32 code points up, everything else is unchanged. -/
def pyLowerChar (c : Char) : Char :=
  if 'A' ≤ c ∧ c ≤ 'Z' then Char.ofNat (c.toNat + 32)
  else if 'À' ≤ c ∧ c ≤ 'Þ' ∧ c ≠ '×' then Char.ofNat (c.toNat + 32)
  else c

/-- The lower method on a whole string. -/
def pyLower (s : String) : String := String.mk (s.data.map pyLowerChar)

/-- The strip method: drop leading and trailing whitespace. -/
def pyStrip (s : String) : String :=
  String.mk (((s.data.dropWhile isPySpace).reverse.dropWhile isPySpace).reverse)

/-- The guard used by the batch loops on each entry, true when the string
is empty or all whitespace, so that the Python test of strip being falsy
holds. -/
def pyIsBlank (s : String) : Bool := s.data.all isPySpace

/-- The body of load_spacy_model. The module level variable holding the
cached pipeline is the explicit cache argument; loading itself is
external, and a loaded pipeline is represented by the model name it was
loaded from. The function returns the pipeline that serves the call; the
new cache value is always some of this result. -/
def load_spacy_model (cache : Option String) (model_name : String) : String :=
  match cache with
  | Option.some nlp => nlp
  | Option.none => model_name

/-- Pre warm entry point, a direct wrapper around load_spacy_model. -/
def load_model (cache : Option String) (model_name : String) : String :=
  load_spacy_model cache model_name

/-- The cache contents after a sequence of load calls, starting from the
empty cache of a fresh process. -/
def cacheAfter (calls : List String) : Option String :=
  calls.foldl (fun c n => Option.some (load_spacy_model c n)) Option.none

/-- Stable sort of spans by start offset, the counterpart of the Python
sorted call with key the span start. Insertion sort is stable, like the
Python sort. -/
def sortSpans (spans : List (Nat × Nat)) : List (Nat × Nat) :=
  List.insertionSort (fun a b => a.1 ≤ b.1) spans

/-- The linear pass inside _merge_spans: cur is the interval being grown,
matching the mutation of the last list element in the Python loop. -/
def mergeLoop (cur : Nat × Nat) : List (Nat × Nat) → List (Nat × Nat)
  | [] => [cur]
  | sp :: rest =>
      if sp.1 ≤ cur.2 then mergeLoop (cur.1, max cur.2 sp.2) rest
      else cur :: mergeLoop sp rest

/-- _merge_spans: merge overlapping or adjacent character spans. -/
def _merge_spans (spans : List (Nat × Nat)) : List (Nat × Nat) :=
  match sortSpans spans with
  | [] => []
  | first :: rest => mergeLoop first rest

/-- Stable sort of spans by start offset, descending, the counterpart of
the Python sorted call with key the span start and reverse true. -/
def sortSpansDesc (spans : List (Nat × Nat)) : List (Nat × Nat) :=
  List.insertionSort (fun a b => b.1 ≤ a.1) spans

/-- _apply_spans: replace character spans right to left so that offsets
of spans not yet replaced are preserved. -/
def _apply_spans (text : String) (spans : List (Nat × Nat)) (replacement : String) : String :=
  (sortSpansDesc spans).foldl
    (fun t sp => String.mk ((t.data.take sp.1) ++ replacement.data ++ (t.data.drop sp.2)))
    text

/-- One character offset lies inside a half open span. -/
def spanCovers (sp : Nat × Nat) (x : Nat) : Bool :=
  decide (sp.1 ≤ x ∧ x < sp.2)

/-- One character offset lies inside some span of the list. -/
def covers (spans : List (Nat × Nat)) (x : Nat) : Bool :=
  spans.any fun sp => spanCovers sp x

/-- The substitution of the empty string for every entry that is not a
string, applied before the batch reaches the pipeline. -/
def safe_text (t : PyVal) : String :=
  match t with
  | PyVal.str s => s
  | _ => ""

/-- The per document body of the redact_names_batch loop: keep the PER
entity spans reported by the pipeline, merge them and rewrite; a document
with no PER spans is returned unchanged. -/
def ner_doc (pipelines : String → String → List (String × Nat × Nat))
    (nlp : String) (replacement : String) (doc : String) : String :=
  let spans := (pipelines nlp doc).filterMap fun ent =>
    if ent.1 = "PER" then Option.some (ent.2.1, ent.2.2) else Option.none
  if spans.isEmpty then doc
  else _apply_spans doc (_merge_spans spans) replacement

/-- redact_names_batch: redact PER entities across a list of entries. The
pipelines argument supplies the entity output of the external pipeline
named by its model name, as label, start offset and end offset triples.
Returns the new cache value and the output batch. -/
def redact_names_batch (pipelines : String → String → List (String × Nat × Nat))
    (cache : Option String) (texts : List PyVal)
    (replacement : String) (model_name : String) :
    Option String × List PyVal :=
  let safe_texts := texts.map safe_text
  let nlp := load_spacy_model cache model_name
  let results := safe_texts.map (ner_doc pipelines nlp replacement)
  (Option.some nlp,
    (texts.zip results).map fun p =>
      if p.1 = PyVal.none then PyVal.none else PyVal.str p.2)

/-- load_surname_dict on the lines of the dictionary file: keep lines
that are nonempty after stripping and whose raw text does not begin with
a hash mark, strip them, and lower case them. The Python set is modeled
by the list of its elements; only membership is ever used. File reading
and the per path cache are external to this embedding. -/
def load_surname_dict (lines : List String) : List String :=
  (lines.filter fun line =>
      !(pyStrip line == "") && !(line.data.head? == Option.some '#')).map
    fun line => pyLower (pyStrip line)

/-- Character class of _WORD_RE: ASCII letters plus the code point ranges
00C0 to 024F and 1E00 to 1EFF, exactly the character set of the regex. -/
def isWordChar (c : Char) : Bool :=
  decide (('A' ≤ c ∧ c ≤ 'Z') ∨ ('a' ≤ c ∧ c ≤ 'z') ∨
    ('À' ≤ c ∧ c ≤ 'ɏ') ∨ ('Ḁ' ≤ c ∧ c ≤ 'ỿ'))

/-- The hyphen continuation group of _WORD_RE: starting at a hyphen that
is followed by at least one word character, consume the hyphen and the
following letter run, repeatedly. Returns the consumed characters and the
rest. The fuel argument only bounds recursion depth; every step consumes
at least two characters, so fuel of at least the list length is always
enough. -/
def hyphenChain : Nat → List Char → List Char × List Char
  | 0, cs => ([], cs)
  | fuel + 1, '-' :: c :: cs =>
      if isWordChar c then
        let w := (c :: cs).takeWhile isWordChar
        let r := (c :: cs).dropWhile isWordChar
        let p := hyphenChain fuel r
        ('-' :: (w ++ p.1), p.2)
      else ([], '-' :: c :: cs)
  | _, cs => ([], cs)

/-- The finditer loop of _WORD_RE: scan left to right; at a word
character start a maximal token, extend it over hyphenated parts, emit
its start offset, end offset and text, and resume after it. Fuel bounds
the recursion; every step consumes at least one character, so the list
length plus one is always enough. -/
def wordScan : Nat → List Char → Nat → List (Nat × Nat × String)
  | 0, _, _ => []
  | _ + 1, [], _ => []
  | fuel + 1, c :: cs, pos =>
      if isWordChar c then
        let w := (c :: cs).takeWhile isWordChar
        let r := (c :: cs).dropWhile isWordChar
        let p := hyphenChain (r.length + 1) r
        let tok := w ++ p.1
        (pos, pos + tok.length, String.mk tok) :: wordScan fuel p.2 (pos + tok.length)
      else wordScan fuel cs (pos + 1)

/-- All matches of _WORD_RE in a text, as start offset, end offset and
matched token. -/
def _WORD_RE_finditer (text : String) : List (Nat × Nat × String) :=
  wordScan (text.data.length + 1) text.data 0

/-- The simple title alternatives of _TITLE_RE, lower cased, each with
and without the optional trailing period. -/
def _TITLE_ALTS : List String :=
  ["dr", "dr.", "prof", "prof.", "doz", "doz.", "pd", "pd.",
   "oa", "oa.", "oä", "oä.", "ca", "ca.", "cä", "cä."]

/-- The combined alternative of _TITLE_RE, professor title with optional
period, mandatory whitespace, doctor title with optional period, checked
on lower cased characters. -/
def profDrCore (cs : List Char) : Bool :=
  match cs with
  | 'p' :: 'r' :: 'o' :: 'f' :: rest =>
      let rest2 := match rest with
        | '.' :: r => r
        | _ => rest
      let ws := rest2.takeWhile isPySpace
      let r3 := rest2.dropWhile isPySpace
      !ws.isEmpty && (r3 == ['d', 'r'] || r3 == ['d', 'r', '.'])
  | _ => false

/-- Whether a lower cased suffix matches the whole anchored _TITLE_RE
pattern: one title alternative followed by optional whitespace, reaching
the end of the suffix. -/
def titleSuffixMatch (cs : List Char) : Bool :=
  (List.range (cs.length + 1)).any fun k =>
    (_TITLE_ALTS.contains (String.mk (cs.take k)) || profDrCore (cs.take k)) &&
      (cs.drop k).all isPySpace

/-- The search of _TITLE_RE on the text before a match: it returns the
leftmost position whose suffix matches the pattern anchored at the end,
and the new start of the span is exactly that position. Lower casing both
sides models the ignore case flag. -/
def _TITLE_RE_search (before : List Char) : Option Nat :=
  (List.range before.length).find? fun i =>
    titleSuffixMatch ((before.drop i).map pyLowerChar)

/-- Last character test, the Python endswith with a one character
suffix. -/
def pyEndsWithS (w : String) : Bool := w.data.getLast? == Option.some 's'

/-- Drop the final character, the Python slice without the last
position. -/
def strDropLast (w : String) : String := String.mk w.data.dropLast

/-- _normalise: lower case, and strip a trailing genitive s only when the
lowered word is longer than three characters, so the remaining stem keeps
at least three characters. -/
def _normalise (word : String) : String :=
  let w := pyLower word
  if pyEndsWithS w && decide (w.length > 3) then strDropLast w else w

/-- The split method of Python strings on a single hyphen: split at every
hyphen, keeping empty pieces, never returning an empty list. -/
def splitHyphen : List Char → List (List Char)
  | [] => [[]]
  | '-' :: rest => [] :: splitHyphen rest
  | c :: rest =>
      match splitHyphen rest with
      | [] => [[c]]
      | p :: ps => (c :: p) :: ps

/-- _dict_spans: offsets of dictionary surname matches. Every token of
_WORD_RE is split at hyphens; the token matches when any part normalises
into the surname set, and the reported span is the span of the whole
token, optionally extended backwards over a title prefix found by
_TITLE_RE directly before the match. -/
def _dict_spans (text : String) (surname_set : List String) ( title_prefix : Bool) :
    List (Nat × Nat) :=
  (_WORD_RE_finditer text).filterMap fun m =>
    let parts := (splitHyphen m.2.2.data).map String.mk
    let matched := parts.any fun p => surname_set.contains (_normalise p)
    if matched then
      let start :=
        if title_prefix then
          match _TITLE_RE_search (text.data.take m.1) with
          | Option.some i => i
          | Option.none => m.1
        else m.1
      Option.some (start, m.2.1)
    else Option.none

/-- The span computation and rewrite for one dictionary document. -/
def dict_doc (surname_set : List String) (replacement : String) ( title_prefix : Bool)
    (text : String) : String :=
  let spans := _dict_spans text surname_set title_prefix
  if spans.isEmpty then text
  else _apply_spans text (_merge_spans spans) replacement

/-- The per entry body of the redact_names_dict_batch loop: entries that
are not strings, or that are blank strings, are appended unchanged, all
other strings are redacted. -/
def dict_entry (surname_set : List String) (replacement : String) ( title_prefix : Bool)
    (t : PyVal) : PyVal :=
  match t with
  | PyVal.str s =>
      if pyIsBlank s then PyVal.str s
      else PyVal.str (dict_doc surname_set replacement title_prefix s)
  | v => v

/-- redact_names_dict_batch: redact dictionary matched surnames across a
batch. The surname set argument is the loaded dictionary; loading it from
the file path and the per path cache are external file work. -/
def redact_names_dict_batch (texts : List PyVal) (surname_set : List String)
    (replacement : String) ( title_prefix : Bool) : List PyVal :=
  let results := texts.map (dict_entry surname_set replacement title_prefix)
  (texts.zip results).map fun p =>
    if p.1 = PyVal.none then PyVal.none else p.2

/-- The default case id pattern, kept as the literal pattern string that
is handed to the regular expression compiler. -/
def _DEFAULT_CASE_ID_PATTERN : String :=
  "\\b(?:AK|EK|A|E)/\\d\x7b1,6\x7d/\\d\x7b1,2\x7d\\b"

/-- The argument resolution of the pattern parameter: a missing or empty
pattern falls back to the default, matching Python truthiness. -/
def resolve_pattern (pattern : Option String) : String :=
  match pattern with
  | Option.none => _DEFAULT_CASE_ID_PATTERN
  | Option.some p => if p == "" then _DEFAULT_CASE_ID_PATTERN else p

/-- The per entry body of the redact_case_ids_batch loop; sub is the
global substitution method of the compiled pattern, taking the
replacement and the text. -/
def case_entry (sub : String → String → String) (replacement : String) (t : PyVal) : PyVal :=
  match t with
  | PyVal.str s =>
      if pyIsBlank s then PyVal.str s
      else PyVal.str (sub replacement s)
  | v => v

/-- redact_case_ids_batch: the pattern is compiled once, before the loop
over the documents; a compile failure aborts the whole call with no
output. The regular expression engine is external and is modeled by the
reCompile argument, which either fails or yields the substitution
function of the compiled pattern. -/
def redact_case_ids_batch
    (reCompile : String → Except String (String → String → String))
    (texts : List PyVal) (replacement : String) (pattern : Option String) :
    Except String (List PyVal) :=
  match reCompile (resolve_pattern pattern) with
  | Except.error e => Except.error e
  | Except.ok sub =>
      let results := texts.map (case_entry sub replacement)
      Except.ok ((texts.zip results).map fun p =>
        if p.1 = PyVal.none then PyVal.none else p.2)

/-- The end to end effect of redact_names_batch on one entry, used to
state batch level facts. -/
def ner_entry (pipelines : String → String → List (String × Nat × Nat))
    (nlp : String) (replacement : String) (t : PyVal) : PyVal :=
  match t with
  | PyVal.none => PyVal.none
  | PyVal.str s => PyVal.str (ner_doc pipelines nlp replacement s)
  | PyVal.other _ => PyVal.str (ner_doc pipelines nlp replacement "")

instance : IsTotal (Nat × Nat) (fun a b => a.1 ≤ b.1) :=
  ⟨fun a b => Nat.le_total a.1 b.1⟩

instance : IsTrans (Nat × Nat) (fun a b => a.1 ≤ b.1) :=
  ⟨fun _ _ _ h1 h2 => Nat.le_trans h1 h2⟩

theorem covers_cons (a : Nat × Nat) (l : List (Nat × Nat)) (x : Nat) :
    covers (a :: l) x = (spanCovers a x || covers l x) := rfl

theorem spanCovers_merge (c : Nat × Nat) (s e x : Nat) (h1 : c.1 ≤ s) (h2 : s ≤ c.2) :
    spanCovers (c.1, max c.2 e) x = (spanCovers c x || spanCovers (s, e) x) := by
  simp only [spanCovers, ← Bool.decide_or]
  rw [decide_eq_decide]
  omega

theorem mergeLoop_head (l : List (Nat × Nat)) : ∀ cur : Nat × Nat,
    ∃ b t, mergeLoop cur l = (cur.1, b) :: t := by
  induction l with
  | nil => intro cur; exact ⟨cur.2, [], rfl⟩
  | cons sp rest ih =>
      intro cur
      by_cases h : sp.1 ≤ cur.2
      · simpa [mergeLoop, h] using ih (cur.1, max cur.2 sp.2)
      · exact ⟨cur.2, mergeLoop sp rest, by simp [mergeLoop, h]⟩

theorem mergeLoop_start_le (l : List (Nat × Nat)) : ∀ cur : Nat × Nat,
    List.Pairwise (fun a b : Nat × Nat => a.1 ≤ b.1) (cur :: l) →
    ∀ x ∈ mergeLoop cur l, cur.1 ≤ x.1 := by
  induction l with
  | nil =>
      intro cur _ x hx
      rw [show mergeLoop cur [] = [cur] from rfl, List.mem_singleton] at hx
      exact hx ▸ Nat.le_refl _
  | cons sp rest ih =>
      intro cur hp x hx
      rw [List.pairwise_cons] at hp
      obtain ⟨hcur, hrest⟩ := hp
      by_cases h : sp.1 ≤ cur.2
      · rw [show mergeLoop cur (sp :: rest) = mergeLoop (cur.1, max cur.2 sp.2) rest from by
          simp [mergeLoop, h]] at hx
        have hp2 : List.Pairwise (fun a b : Nat × Nat => a.1 ≤ b.1)
            ((cur.1, max cur.2 sp.2) :: rest) := by
          rw [List.pairwise_cons]
          exact ⟨fun q hq => hcur q (List.mem_cons_of_mem _ hq),
            (List.pairwise_cons.mp hrest).2⟩
        exact ih (cur.1, max cur.2 sp.2) hp2 x hx
      · rw [show mergeLoop cur (sp :: rest) = cur :: mergeLoop sp rest from by
          simp [mergeLoop, h]] at hx
        rcases List.mem_cons.mp hx with rfl | hx2
        · exact Nat.le_refl _
        · exact Nat.le_trans (hcur sp (List.mem_cons_self _ _)) (ih sp hrest x hx2)

theorem mergeLoop_sorted_gap (l : List (Nat × Nat)) : ∀ cur : Nat × Nat,
    List.Pairwise (fun a b : Nat × Nat => a.1 ≤ b.1) (cur :: l) →
    List.Pairwise (fun a b : Nat × Nat => a.1 ≤ b.1) (mergeLoop cur l)
    ∧ List.Chain' (fun a b : Nat × Nat => a.2 < b.1) (mergeLoop cur l) := by
  induction l with
  | nil =>
      intro cur _
      exact ⟨List.pairwise_singleton _ _, List.chain'_singleton _⟩
  | cons sp rest ih =>
      intro cur hp
      rw [List.pairwise_cons] at hp
      obtain ⟨hcur, hrest⟩ := hp
      by_cases h : sp.1 ≤ cur.2
      · have hp2 : List.Pairwise (fun a b : Nat × Nat => a.1 ≤ b.1)
            ((cur.1, max cur.2 sp.2) :: rest) := by
          rw [List.pairwise_cons]
          exact ⟨fun q hq => hcur q (List.mem_cons_of_mem _ hq),
            (List.pairwise_cons.mp hrest).2⟩
        simpa [mergeLoop, h] using ih (cur.1, max cur.2 sp.2) hp2
      · have hrest2 := ih sp hrest
        have hstarts : ∀ x ∈ mergeLoop sp rest, sp.1 ≤ x.1 :=
          mergeLoop_start_le rest sp hrest
        rw [show mergeLoop cur (sp :: rest) = cur :: mergeLoop sp rest from by
          simp [mergeLoop, h]]
        constructor
        · rw [List.pairwise_cons]
          exact ⟨fun q hq =>
            Nat.le_trans (hcur sp (List.mem_cons_self _ _)) (hstarts q hq), hrest2.1⟩
        · rw [List.chain'_cons']
          refine ⟨?_, hrest2.2⟩
          intro y hy
          obtain ⟨b, t, heq⟩ := mergeLoop_head rest sp
          rw [heq] at hy
          simp only [List.head?_cons, Option.mem_def, Option.some.injEq] at hy
          rw [← hy]
          show cur.2 < sp.1
          omega

theorem mergeLoop_covers (l : List (Nat × Nat)) : ∀ cur : Nat × Nat,
    List.Pairwise (fun a b : Nat × Nat => a.1 ≤ b.1) (cur :: l) →
    ∀ x, covers (mergeLoop cur l) x = covers (cur :: l) x := by
  induction l with
  | nil => intro cur _ x; rfl
  | cons sp rest ih =>
      intro cur hp x
      obtain ⟨s2, e2⟩ := sp
      rw [List.pairwise_cons] at hp
      obtain ⟨hcur, hrest⟩ := hp
      by_cases h : (s2, e2).1 ≤ cur.2
      · rw [show mergeLoop cur ((s2, e2) :: rest) = mergeLoop (cur.1, max cur.2 e2) rest from by
          simp [mergeLoop, h]]
        have hp2 : List.Pairwise (fun a b : Nat × Nat => a.1 ≤ b.1)
            ((cur.1, max cur.2 e2) :: rest) := by
          rw [List.pairwise_cons]
          exact ⟨fun q hq => hcur q (List.mem_cons_of_mem _ hq),
            (List.pairwise_cons.mp hrest).2⟩
        rw [ih (cur.1, max cur.2 e2) hp2 x]
        rw [covers_cons, covers_cons, covers_cons]
        rw [spanCovers_merge cur s2 e2 x (hcur (s2, e2) (List.mem_cons_self _ _)) h]
        rw [Bool.or_assoc]
      · rw [show mergeLoop cur ((s2, e2) :: rest) = cur :: mergeLoop (s2, e2) rest from by
          simp [mergeLoop, h]]
        rw [covers_cons, covers_cons, ih (s2, e2) hrest x]

theorem mergeLoop_gap_fixed (l : List (Nat × Nat)) : ∀ cur : Nat × Nat,
    List.Chain' (fun a b : Nat × Nat => a.2 < b.1) (cur :: l) →
    mergeLoop cur l = cur :: l := by
  induction l with
  | nil => intro cur _; rfl
  | cons sp rest ih =>
      intro cur hch
      rw [List.chain'_cons] at hch
      have hlt := hch.1
      have hns : ¬ sp.1 ≤ cur.2 := by omega
      simp [mergeLoop, hns, ih sp hch.2]

theorem sortSpans_sorted (spans : List (Nat × Nat)) :
    List.Pairwise (fun a b : Nat × Nat => a.1 ≤ b.1) (sortSpans spans) :=
  List.sorted_insertionSort _ spans

theorem sortSpans_perm (spans : List (Nat × Nat)) :
    (sortSpans spans).Perm spans :=
  List.perm_insertionSort _ spans

theorem perm_covers {l1 l2 : List (Nat × Nat)} (h : l1.Perm l2) (x : Nat) :
    covers l1 x = covers l2 x := by
  induction h with
  | nil => rfl
  | cons a _ ih => rw [covers_cons, covers_cons, ih]
  | swap a b l =>
      rw [covers_cons, covers_cons, covers_cons, covers_cons]
      rw [← Bool.or_assoc, ← Bool.or_assoc, Bool.or_comm (spanCovers b x) (spanCovers a x)]
  | trans _ _ ih1 ih2 => rw [ih1, ih2]

theorem merge_spans_sorted_gap (S : List (Nat × Nat)) :
    List.Pairwise (fun a b : Nat × Nat => a.1 ≤ b.1) (_merge_spans S)
    ∧ List.Chain' (fun a b : Nat × Nat => a.2 < b.1) (_merge_spans S) := by
  unfold _merge_spans
  cases h : sortSpans S with
  | nil => exact ⟨List.Pairwise.nil, List.chain'_nil⟩
  | cons f r =>
      have hs := sortSpans_sorted S
      rw [h] at hs
      exact mergeLoop_sorted_gap r f hs

theorem merge_spans_covers (S : List (Nat × Nat)) (x : Nat) :
    covers (_merge_spans S) x = covers S x := by
  have hperm := sortSpans_perm S
  unfold _merge_spans
  cases h : sortSpans S with
  | nil =>
      rw [h] at hperm
      rw [hperm.symm.eq_nil]
  | cons f r =>
      rw [h] at hperm
      have hs := sortSpans_sorted S
      rw [h] at hs
      rw [mergeLoop_covers r f hs x]
      exact perm_covers hperm x

theorem merge_spans_idem (S : List (Nat × Nat)) :
    _merge_spans (_merge_spans S) = _merge_spans S := by
  obtain ⟨hp, hc⟩ := merge_spans_sorted_gap S
  have hsort : sortSpans (_merge_spans S) = _merge_spans S :=
    List.Sorted.insertionSort_eq hp
  show (match sortSpans (_merge_spans S) with
    | [] => []
    | first :: rest => mergeLoop first rest) = _merge_spans S
  rw [hsort]
  cases hM : _merge_spans S with
  | nil => rfl
  | cons f r =>
      rw [hM] at hc
      exact mergeLoop_gap_fixed r f hc

theorem zip_map_entry (g : PyVal → PyVal) (hg : g PyVal.none = PyVal.none) :
    ∀ texts : List PyVal,
      ((texts.zip (texts.map g)).map fun p =>
          if p.1 = PyVal.none then PyVal.none else p.2) = texts.map g := by
  intro texts
  induction texts with
  | nil => rfl
  | cons t ts ih =>
      rw [List.map_cons, List.zip_cons_cons, List.map_cons, ih]
      show (if t = PyVal.none then PyVal.none else g t) :: ts.map g = g t :: ts.map g
      by_cases ht : t = PyVal.none
      · rw [if_pos ht, ht, hg]
      · rw [if_neg ht]

theorem zip_map_entry_str (g : PyVal → String) :
    ∀ texts : List PyVal,
      ((texts.zip (texts.map g)).map fun p =>
          if p.1 = PyVal.none then PyVal.none else PyVal.str p.2)
        = texts.map fun t =>
            if t = PyVal.none then PyVal.none else PyVal.str (g t) := by
  intro texts
  induction texts with
  | nil => rfl
  | cons t ts ih =>
      rw [List.map_cons, List.zip_cons_cons, List.map_cons, ih, List.map_cons]

theorem dict_batch_eq_map (texts : List PyVal) (surname_set : List String)
    (replacement : String) ( tp : Bool) :
    redact_names_dict_batch texts surname_set replacement tp
      = texts.map (dict_entry surname_set replacement tp) :=
  zip_map_entry (dict_entry surname_set replacement tp) rfl texts

theorem case_batch_eq_map (reCompile : String → Except String (String → String → String))
    (texts : List PyVal) (replacement : String) (pattern : Option String)
    (sub : String → String → String)
    (h : reCompile (resolve_pattern pattern) = Except.ok sub) :
    redact_case_ids_batch reCompile texts replacement pattern
      = Except.ok (texts.map (case_entry sub replacement)) := by
  unfold redact_case_ids_batch
  rw [h]
  exact congrArg Except.ok (zip_map_entry (case_entry sub replacement) rfl texts)

theorem ner_batch_eq_map (pipelines : String → String → List (String × Nat × Nat))
    (cache : Option String) (texts : List PyVal) (replacement model_name : String) :
    (redact_names_batch pipelines cache texts replacement model_name).2
      = texts.map (ner_entry pipelines (load_spacy_model cache model_name) replacement) := by
  show ((texts.zip ((texts.map safe_text).map
      (ner_doc pipelines (load_spacy_model cache model_name) replacement))).map fun p =>
        if p.1 = PyVal.none then PyVal.none else PyVal.str p.2) = _
  rw [List.map_map, zip_map_entry_str]
  refine congrArg (fun f => List.map f texts) ?_
  funext t
  cases t <;> rfl

theorem cacheAfter_loaded (calls : List String) : ∀ p : String,
    calls.foldl (fun c n => Option.some (load_spacy_model c n)) (Option.some p)
      = Option.some p := by
  induction calls with
  | nil => intro p; rfl
  | cons c cs ih => intro p; exact ih p

theorem cacheAfter_cons (c : String) (calls : List String) :
    cacheAfter (c :: calls) = Option.some c :=
  cacheAfter_loaded calls c

/-- Claim C1, counterexample for the statistical model operation: a non
null non string entry is not returned unchanged but comes back as the
redaction of the empty string, and an all whitespace string is handed to
the detector, so a pipeline reporting a PER span on it changes it. -/
theorem spec_c1_counterexample :
    (redact_names_batch (fun _ _ => []) Option.none [PyVal.other 0]
        "[NAME]" "de_core_news_lg").2 = [PyVal.str ""]
  ∧ PyVal.str "" ≠ PyVal.other 0
  ∧ (redact_names_batch (fun _ _ => [("PER", 0, 2)]) Option.none [PyVal.str "  "]
        "[NAME]" "de_core_news_lg").2 = [PyVal.str "[NAME]"]
  ∧ PyVal.str "[NAME]" ≠ PyVal.str "  " :=
  ⟨by decide, by decide, by decide, by decide⟩

/-- Claim C1, amended: for the dictionary and structured id operations
every null, non string, or empty or all whitespace string entry is
returned unchanged at its position; for all three operations the output
at position i is null exactly when the input at position i is null; in
the statistical model operation a non null non string entry is treated
exactly like the empty string rather than passed through. -/
theorem spec_c1_amended :
    (∀ (texts : List PyVal) (surname_set : List String) (replacement : String)
        ( tp : Bool) (i : Nat) (v : PyVal),
        texts[i]? = Option.some v →
        (v = PyVal.none ∨ (∃ n, v = PyVal.other n) ∨
          (∃ s, v = PyVal.str s ∧ pyIsBlank s = true)) →
        (redact_names_dict_batch texts surname_set replacement tp)[i]? = Option.some v)
  ∧ (∀ (reCompile : String → Except String (String → String → String))
        (sub : String → String → String) (texts : List PyVal)
        (replacement : String) (pattern : Option String) (out : List PyVal)
        (i : Nat) (v : PyVal),
        reCompile (resolve_pattern pattern) = Except.ok sub →
        redact_case_ids_batch reCompile texts replacement pattern = Except.ok out →
        texts[i]? = Option.some v →
        (v = PyVal.none ∨ (∃ n, v = PyVal.other n) ∨
          (∃ s, v = PyVal.str s ∧ pyIsBlank s = true)) →
        out[i]? = Option.some v)
  ∧ (∀ (pipelines : String → String → List (String × Nat × Nat))
        (cache : Option String) (texts : List PyVal)
        (replacement model_name : String) (i : Nat) (v : PyVal),
        texts[i]? = Option.some v →
        ((redact_names_batch pipelines cache texts replacement model_name).2[i]?
            = Option.some PyVal.none ↔ v = PyVal.none))
  ∧ (∀ (pipelines : String → String → List (String × Nat × Nat))
        (cache : Option String) (replacement model_name : String) (n : Nat),
        (redact_names_batch pipelines cache [PyVal.other n] replacement model_name).2
          = (redact_names_batch pipelines cache [PyVal.str ""] replacement model_name).2) := by
  refine ⟨?_, ?_, ?_, ?_⟩
  · intro texts surname_set replacement tp i v hv hcase
    rw [dict_batch_eq_map, List.getElem?_map, hv]
    rcases hcase with rfl | ⟨n, rfl⟩ | ⟨s, rfl, hs⟩
    · rfl
    · rfl
    · simp [dict_entry, hs]
  · intro rc sub texts replacement pattern out i v hok hbatch hv hcase
    rw [case_batch_eq_map rc texts replacement pattern sub hok] at hbatch
    injection hbatch with hbatch
    rw [← hbatch, List.getElem?_map, hv]
    rcases hcase with rfl | ⟨n, rfl⟩ | ⟨s, rfl, hs⟩
    · rfl
    · rfl
    · simp [case_entry, hs]
  · intro pipelines cache texts replacement model_name i v hv
    rw [ner_batch_eq_map, List.getElem?_map, hv]
    cases v with
    | none => simp [ner_entry]
    | str s => simp [ner_entry]
    | other n => simp [ner_entry]
  · intro pipelines cache replacement model_name n
    rw [ner_batch_eq_map, ner_batch_eq_map]
    rfl

/-- Claim C1, witness: the passthrough example of the specification, the
all whitespace entry at position two of the dictionary batch is returned
unchanged. -/
theorem spec_c1_witness :
    (redact_names_dict_batch
        [PyVal.none, PyVal.str "", PyVal.str "  ", PyVal.str "Hans Müller"]
        ["müller"] "[NAME]" true)[2]? = Option.some (PyVal.str "  ") :=
  spec_c1_amended.1 _ _ _ _ 2 _ rfl (Or.inr (Or.inr ⟨"  ", rfl, by decide⟩))

/-- Claim C2, counterexample: the pipeline cache is a single unkeyed
slot, so after a first load under one model identifier a call naming a
different identifier is served by the first pipeline. -/
theorem spec_c2_counterexample :
    load_spacy_model (cacheAfter ["modelA"]) "modelB" = "modelA"
  ∧ "modelA" ≠ "modelB" :=
  ⟨by decide, by decide⟩

/-- Claim C2, amended: the process wide cache holds at most one pipeline
and is not keyed by model identifier; after any sequence of pre warm or
redact calls the pipeline serving the next call is the first loaded one,
whatever identifier the call names, so a call for identifier m is served
by the pipeline for m only when m was the first identifier loaded. -/
theorem spec_c2_amended :
    (∀ (calls : List String) (m : String),
        load_spacy_model (cacheAfter calls) m = calls.headD m)
  ∧ (∀ (c : String) (calls : List String),
        cacheAfter (c :: calls) = Option.some c) := by
  constructor
  · intro calls m
    cases calls with
    | nil => rfl
    | cons c cs => rw [cacheAfter_cons]; rfl
  · intro c calls
    exact cacheAfter_cons c calls

/-- Claim C3: for every sequence of valid spans the merge output is
sorted ascending by start, consecutive output spans satisfy a strict gap,
the union of covered character offsets is preserved, and empty input
yields empty output. -/
theorem spec_c3_merge_correct :
    ∀ S : List (Nat × Nat), (∀ sp ∈ S, sp.1 ≤ sp.2) →
      List.Pairwise (fun a b : Nat × Nat => a.1 ≤ b.1) (_merge_spans S)
    ∧ List.Chain' (fun a b : Nat × Nat => a.2 < b.1) (_merge_spans S)
    ∧ (∀ x, covers (_merge_spans S) x = covers S x)
    ∧ (S = [] → _merge_spans S = []) := by
  intro S _
  refine ⟨(merge_spans_sorted_gap S).1, (merge_spans_sorted_gap S).2,
    fun x => merge_spans_covers S x, ?_⟩
  rintro rfl
  rfl

/-- Claim C3, witness at a concrete span list with an overlap and an
adjacency. -/
theorem spec_c3_witness :
    List.Chain' (fun a b : Nat × Nat => a.2 < b.1) (_merge_spans [(3, 5), (0, 2), (2, 4)])
  ∧ covers (_merge_spans [(3, 5), (0, 2), (2, 4)]) 1 = covers [(3, 5), (0, 2), (2, 4)] 1 :=
  ⟨(spec_c3_merge_correct [(3, 5), (0, 2), (2, 4)] (by decide)).2.1,
    (spec_c3_merge_correct [(3, 5), (0, 2), (2, 4)] (by decide)).2.2.1 1⟩

/-- Claim C4: normalisation lower cases and strips a trailing s exactly
when the lowered form ends in s and the stem without that letter keeps at
least three characters, equivalently the lowered token has at least four
characters; Müllers normalises to müller, and a three character token
ending in s is not stripped. -/
theorem spec_c4_normalise :
    (∀ w : String,
        pyEndsWithS (pyLower w) = true ∧ 4 ≤ (pyLower w).length →
        _normalise w = strDropLast (pyLower w))
  ∧ (∀ w : String,
        ¬ (pyEndsWithS (pyLower w) = true ∧ 4 ≤ (pyLower w).length) →
        _normalise w = pyLower w)
  ∧ (∀ w : String,
        (pyEndsWithS (pyLower w) = true ∧ 3 ≤ (strDropLast (pyLower w)).length)
        ↔ (pyEndsWithS (pyLower w) = true ∧ 4 ≤ (pyLower w).length))
  ∧ _normalise "Müllers" = "müller"
  ∧ _normalise "Els" = "els" := by
  refine ⟨?_, ?_, ?_, by decide, by decide⟩
  · intro w h
    have hb : (pyEndsWithS (pyLower w) && decide ((pyLower w).length > 3)) = true := by
      rw [Bool.and_eq_true, decide_eq_true_eq]
      exact ⟨h.1, by omega⟩
    simp [_normalise, hb]
  · intro w h
    have hb : (pyEndsWithS (pyLower w) && decide ((pyLower w).length > 3)) = false := by
      by_contra hcon
      rw [Bool.not_eq_false, Bool.and_eq_true, decide_eq_true_eq] at hcon
      exact h ⟨hcon.1, by omega⟩
    simp [_normalise, hb]
  · intro w
    have hlen : (strDropLast (pyLower w)).length = (pyLower w).length - 1 :=
      List.length_dropLast (pyLower w).data
    constructor
    · rintro ⟨he, hl⟩
      refine ⟨he, ?_⟩
      omega
    · rintro ⟨he, hl⟩
      refine ⟨he, ?_⟩
      omega

/-- Claim C4, witness at a concrete genitive surname. -/
theorem spec_c4_witness :
    _normalise "Annas" = strDropLast (pyLower "Annas") :=
  spec_c4_normalise.1 "Annas" (by decide)

/-- Claim C5: a token found by the word regex whose hyphen split parts
contain one normalising into the dictionary is reported, without title
absorption, with exactly the full token span, and with title absorption
with the same end and a start no later than the token start; the
hyphenated example redacts as one whole span with either part in the
dictionary. -/
theorem spec_c5_compound_tokens :
    (∀ (text : String) (surname_set : List String) (s e : Nat) (tok : String),
        (s, e, tok) ∈ _WORD_RE_finditer text →
        ((splitHyphen tok.data).map String.mk).any
            (fun p => surname_set.contains (_normalise p)) = true →
        ((s, e) ∈ _dict_spans text surname_set false
          ∧ ∃ s2, s2 ≤ s ∧ (s2, e) ∈ _dict_spans text surname_set true))
  ∧ _dict_spans "Müller-Schmidt" ["müller"] true = [(0, 14)]
  ∧ _dict_spans "Müller-Schmidt" ["schmidt"] true = [(0, 14)]
  ∧ redact_names_dict_batch [PyVal.str "Müller-Schmidt"] ["müller"] "[NAME]" true
      = [PyVal.str "[NAME]"]
  ∧ redact_names_dict_batch [PyVal.str "Müller-Schmidt"] ["schmidt"] "[NAME]" true
      = [PyVal.str "[NAME]"] := by
  refine ⟨?_, by decide, by decide, by decide, by decide⟩
  intro text surname_set s e tok hmem hmatch
  have hmatch2 : ∃ x ∈ splitHyphen tok.data, _normalise (String.mk x) ∈ surname_set := by
    simpa using hmatch
  constructor
  · refine List.mem_filterMap.mpr ⟨(s, e, tok), hmem, ?_⟩
    simp [hmatch2]
  · cases hfind : _TITLE_RE_search (text.data.take s) with
    | none =>
        refine ⟨s, Nat.le_refl s, List.mem_filterMap.mpr ⟨(s, e, tok), hmem, ?_⟩⟩
        simp [hmatch2, hfind]
    | some i =>
        have hi : i < (List.take s text.data).length :=
          List.mem_range.mp (List.mem_of_find?_eq_some hfind)
        have his : i ≤ s := by
          rw [List.length_take] at hi
          omega
        refine ⟨i, his, List.mem_filterMap.mpr ⟨(s, e, tok), hmem, ?_⟩⟩
        simp [hmatch2, hfind]

/-- Claim C5, witness: the compound token matches through its second part
and the reported span is the whole token. -/
theorem spec_c5_witness :
    (0, 14) ∈ _dict_spans "Müller-Schmidt" ["schmidt"] false
  ∧ ∃ s2, s2 ≤ 0 ∧ (s2, 14) ∈ _dict_spans "Müller-Schmidt" ["schmidt"] true :=
  spec_c5_compound_tokens.1 "Müller-Schmidt" ["schmidt"] 0 14 "Müller-Schmidt"
    (by decide) (by decide)

/-- Claim C6: with title absorption enabled and müller in the dictionary
the document with a doctor title before the surname is redacted over the
whole title and name span. -/
theorem spec_c6_title_absorption :
    redact_names_dict_batch [PyVal.str "Dr. Müller war da"] ["müller"] "[NAME]" true
      = [PyVal.str "[NAME] war da"]
  ∧ _dict_spans "Dr. Müller war da" ["müller"] true = [(0, 10)] :=
  ⟨by decide, by decide⟩

/-- Claim C7: a failing pattern compilation aborts the structured id
redaction before any document is touched; the whole call returns the
compile error and produces no output list at all. -/
theorem spec_c7_compile_failure_aborts :
    ∀ (reCompile : String → Except String (String → String → String))
      (texts : List PyVal) (replacement : String) (pattern : Option String)
      (msg : String),
      reCompile (resolve_pattern pattern) = Except.error msg →
      redact_case_ids_batch reCompile texts replacement pattern = Except.error msg := by
  intro rc texts replacement pattern msg h
  unfold redact_case_ids_batch
  rw [h]

/-- Claim C7, witness with a concrete failing compiler and a nonempty
batch. -/
theorem spec_c7_witness :
    redact_case_ids_batch (fun _ => Except.error "bad pattern")
        [PyVal.str "Fall AK/123456/24 wurde"] "[FALL-ID]" (Option.some "(unclosed")
      = Except.error "bad pattern" :=
  spec_c7_compile_failure_aborts _ _ _ _ _ rfl

/-- Claim C8: merging is idempotent on every valid span sequence. -/
theorem spec_c8_merge_idempotent :
    ∀ S : List (Nat × Nat), (∀ sp ∈ S, sp.1 ≤ sp.2) →
      _merge_spans (_merge_spans S) = _merge_spans S :=
  fun S _ => merge_spans_idem S

/-- Claim C8, witness at a concrete span list. -/
theorem spec_c8_witness :
    _merge_spans (_merge_spans [(0, 2), (2, 4), (9, 12), (5, 5)])
      = _merge_spans [(0, 2), (2, 4), (9, 12), (5, 5)] :=
  spec_c8_merge_idempotent [(0, 2), (2, 4), (9, 12), (5, 5)] (by decide)

/-- Claim C9: the title regex is case insensitive and not anchored at a
word boundary, so on the text Monica Müller with müller in the dictionary
the trailing letters of Monica are consumed as the abbreviation CA and
the output is Moni with the placeholder. -/
theorem spec_c9_title_midword :
    redact_names_dict_batch [PyVal.str "Monica Müller"] ["müller"] "[NAME]" true
      = [PyVal.str "Moni[NAME]"]
  ∧ _dict_spans "Monica Müller" ["müller"] true = [(4, 13)] :=
  ⟨by decide, by decide⟩

/-- Claim C10: a dictionary entry ending in s with length at least four
whose stem is absent from the dictionary can never be matched by a token
whose lowered form equals the entry, because normalisation strips the
trailing s while the loaded dictionary keeps the entry verbatim apart
from lower casing; with dictionary entry Jonas the text Jonas is not
redacted. -/
theorem spec_c10_genitive_never_matches :
    (∀ (surname_set : List String) (w tok : String),
        w ∈ surname_set →
        pyEndsWithS w = true → 4 ≤ w.length →
        surname_set.contains (strDropLast w) = false →
        pyLower tok = w →
        surname_set.contains (_normalise tok) = false)
  ∧ load_surname_dict ["Jonas"] = ["jonas"]
  ∧ redact_names_dict_batch [PyVal.str "Jonas"] (load_surname_dict ["Jonas"])
      "[NAME]" true = [PyVal.str "Jonas"] := by
  refine ⟨?_, by decide, by decide⟩
  intro surname_set w tok _ he hl hcontains hlower
  have hb : (pyEndsWithS w && decide (w.length > 3)) = true := by
    rw [Bool.and_eq_true, decide_eq_true_eq]
    exact ⟨he, by omega⟩
  have hnorm : _normalise tok = strDropLast w := by
    show (if pyEndsWithS (pyLower tok) && decide ((pyLower tok).length > 3)
        then strDropLast (pyLower tok) else pyLower tok) = strDropLast w
    rw [hlower, hb]
    simp
  rw [hnorm]
  exact hcontains

/-- Claim C10, witness at the concrete dictionary and token. -/
theorem spec_c10_witness :
    List.contains ["jonas"] (_normalise "Jonas") = false :=
  spec_c10_genitive_never_matches.1 ["jonas"] "jonas" "Jonas"
    (by decide) (by decide) (by decide) (by decide) (by decide)

end NerNames
